import Mathlib

set_option maxHeartbeats 1000000
set_option maxRecDepth 10000

/-!
Verification of the core numerical routines of `moments.LD.Numerics`
(`integrate`, `steady_state`, `equilibrium_ld`, `steady_state_two_pop`).

The embedding works over exact rational arithmetic (`ℚ` in place of Python
floats).  Heterozygosity vectors have length `nh` and LD vectors length `nl`;
the operator-building module `moments.LD.Matrices` is an external collaborator
of the core (it is not part of the verified sources), so its builder functions
are abstract parameters collected in an `Env` record, as the specification's
external-interface contract prescribes: deterministic functions from the
demographic parameters to matrices.

Python runtime behaviour that the control flow of `Numerics.py` can reach is
modelled explicitly: a `NameError` for a variable read before assignment, an
`IndexError` for an out-of-range list access, a `TypeError` for `len` of a
function, and `ValueError` for the explicit `raise` statements.  The `while`
loop of `integrate` is run on explicit fuel; exhausting the fuel returns
`Option.none`, so nontermination is observable.  `numpy.linalg.inv` and
applying a `scipy` factorization are both modelled as multiplication by the
adjugate-based inverse `npInv`, which agrees with matrix inversion over `ℚ`.
-/

/-- Dense vector of rationals, indexed by `Fin n`. -/
abbrev Vec (n : ℕ) : Type := Fin n → ℚ

/-- Dense matrix of rationals. -/
abbrev Mat (m n : ℕ) : Type := Matrix (Fin m) (Fin n) ℚ

/-- Python exceptions reachable from the control flow of `Numerics.py`. -/
inductive PyErr : Type
  | valueError (msg : String)
  | nameError (nm : String)
  | indexError (msg : String)
  | typeError (msg : String)
  deriving DecidableEq, Repr

/-- The `rho` argument: `None`, a scalar, or a list of recombination rates. -/
inductive RhoSpec : Type
  | none
  | scalar (r : ℚ)
  | list (rs : List ℚ)
  deriving DecidableEq, Repr

/-- The `nu` argument: a fixed vector of relative sizes or a callable of time. -/
inductive NuSpec : Type
  | fixed (l : List ℚ)
  | fn (f : ℚ → List ℚ)

/-- The `selfing` argument as it reaches the matrix builders: optionally a list
whose entries may themselves be `None` (e.g. `selfing=[selfing_rate]` in
`equilibrium_ld` with `selfing_rate=None`). -/
abbrev SelfSpec : Type := Option (List (Option ℚ))

/-- The `frozen` argument, passed through to the matrix builders unchanged. -/
abbrev FrozenSpec : Type := Option (List Bool)

/-- A migration-rate matrix as a Python list of lists. -/
abbrev MigSpec : Type := List (List ℚ)

/-- Modelled from the spec: the external Operator Builder contract (the
`moments.LD.Matrices` module is not among the verified sources).  Each field is
a deterministic function producing the linear operator of one physical process,
sized to the heterozygosity (`nh`) or LD (`nl`) moment-vector length.
`mutation_h` returns the constant mutation-input vector `U_h`;
`mutation_ld` returns the matrix `U_ld` coupling heterozygosity into LD. -/
structure Env (nh nl : ℕ) : Type where
  drift_h : ℕ → List ℚ → FrozenSpec → Mat nh nh
  drift_ld : ℕ → List ℚ → FrozenSpec → Mat nl nl
  mutation_h : ℕ → ℚ → FrozenSpec → SelfSpec → Vec nh
  mutation_ld : ℕ → ℚ → FrozenSpec → SelfSpec → Mat nl nh
  recombination : ℕ → ℚ → FrozenSpec → SelfSpec → Mat nl nl
  migration_h : ℕ → MigSpec → FrozenSpec → Mat nh nh
  migration_ld : ℕ → MigSpec → FrozenSpec → Mat nl nl

/-- The argument list of `integrate` other than the state `Y`. -/
structure Params : Type where
  nu : NuSpec
  T : ℚ
  dt : ℚ
  theta : ℚ
  rho : RhoSpec
  m : Option MigSpec
  num_pops : Option ℕ
  selfing : SelfSpec
  frozen : FrozenSpec

/-- The state container `Y`: the Python list `[y_1, ..., y_k, h]` whose last
entry is the heterozygosity vector.  `ys` are the LD vectors, so the Python
`len(Y)` is `ys.length + 1` (the Python list is assumed nonempty, since every
caller stores the heterozygosity vector in it). -/
structure StateY (nh nl : ℕ) : Type where
  ys : List (Vec nl)
  h : Vec nh

/-- Computable matrix inverse over `ℚ` via the adjugate; it agrees with
Mathlib's `Matrix.inv` (see `npInv_eq_inv`).  Models `numpy.linalg.inv` and the
application of a `scipy.sparse.linalg.factorized` direct solver. -/
def npInv {n : ℕ} (A : Mat n n) : Mat n n := (Matrix.det A)⁻¹ • Matrix.adjugate A

/- ### Equilibrium solvers (`steady_state`, `equilibrium_ld`,
`steady_state_two_pop`) -/

/-- The closed-form single-population heterozygosity steady state
`[theta]`, adjusted to `[theta * (1 - f/2)]` under selfing rate `f`. -/
def hssOf (theta : ℚ) (sf : Option ℚ) : Vec 1 :=
  fun _ => match sf with
  | none => theta
  | some f => theta * (1 - f / 2)

/-- `equilibrium_ld`: single-population LD equilibrium at one `rho`,
`(D + R)^{-1} · (−U · h_ss)`. -/
def equilibrium_ld {nl : ℕ} (env : Env 1 nl) (theta : ℚ) (rho : ℚ)
    (selfing_rate : Option ℚ) : Vec nl :=
  let hss := hssOf theta selfing_rate
  let U := env.mutation_ld 1 theta none (some [selfing_rate])
  let R := env.recombination 1 rho none (some [selfing_rate])
  let D := env.drift_ld 1 [1] none
  Matrix.mulVec (npInv (D + R)) (-(Matrix.mulVec U hss))

/-- `np.isscalar(rho) and rho < 0`. -/
def scalarNeg : RhoSpec → Bool
  | RhoSpec.scalar r => decide (r < 0)
  | _ => false

/-- `not np.isscalar(rho)` and some entry of the list is negative. -/
def listNeg : RhoSpec → Bool
  | RhoSpec.list rs => rs.any (fun r => decide (r < 0))
  | _ => false

/-- The returned list of `steady_state` after validation: LD vectors (one per
`rho` in a batch, or a single one for scalar `rho`) with the heterozygosity
steady state appended last. -/
def steadyFinish {nl : ℕ} (env : Env 1 nl) (theta : ℚ) (rho : RhoSpec)
    (sf : Option ℚ) (hss : Vec 1) : Except PyErr (StateY 1 nl) :=
  match rho with
  | RhoSpec.list rs => .ok ⟨rs.map (fun r => equilibrium_ld env theta r sf), hss⟩
  | RhoSpec.scalar r => .ok ⟨[equilibrium_ld env theta r sf], hss⟩
  | RhoSpec.none => .ok ⟨[], hss⟩

/-- `steady_state(theta, rho, selfing_rate)` with its validation chain. -/
def steady_state {nl : ℕ} (env : Env 1 nl) (theta : ℚ) (rho : RhoSpec)
    (selfing_rate : Option ℚ) : Except PyErr (StateY 1 nl) :=
  if theta ≤ 0 then .error (.valueError "theta must be positive")
  else if scalarNeg rho then .error (.valueError "rho cannot be negative")
  else if listNeg rho then .error (.valueError "rho values cannot be negative")
  else
    match selfing_rate with
    | none => steadyFinish env theta rho none (hssOf theta none)
    | some f =>
      if f < 0 ∨ 1 < f then
        .error (.valueError "selfing rate must be between 0 and 1")
      else steadyFinish env theta rho (some f) (hssOf theta (some f))

/-- The per-`rho` two-population LD steady state `(D+R+M)^{-1}·(−U·h_ss)`. -/
def twoPopLdSs {nh nl : ℕ} (env : Env nh nl) (nu0 nu1 m01 m10 theta r : ℚ)
    (sf : SelfSpec) (hss : Vec nh) : Vec nl :=
  let U := env.mutation_ld 2 theta none sf
  let R := env.recombination 2 r none sf
  let D := env.drift_ld 2 [nu0, nu1] none
  let M := env.migration_ld 2 [[0, m01], [m10, 0]] none
  Matrix.mulVec (npInv (D + R + M)) (-(Matrix.mulVec U hss))

/-- The selfing-rate validation of `steady_state_two_pop`: defaults to
`[0, 0]`, requires a list of length 2 with entries in `[0, 1]`. -/
def selfingCheck : Option (List ℚ) → Except PyErr (List ℚ)
  | none => .ok [0, 0]
  | some fs =>
    if fs.length ≠ 2 then
      .error (.valueError "selfing rates must be given as list of length 2")
    else if fs.any (fun f => decide (f < 0) || decide (1 < f)) then
      .error (.valueError "selfing rates must be between 0 and 1")
    else .ok fs

/-- The post-validation body of `steady_state_two_pop`: dense solve for the
heterozygosity steady state, then one sparse solve per `rho`. -/
def twoPopBody {nh nl : ℕ} (env : Env nh nl) (nu0 nu1 m01 m10 : ℚ)
    (rho : RhoSpec) (theta : ℚ) (fs : List ℚ) : Except PyErr (StateY nh nl) :=
  let sf : SelfSpec := some (fs.map some)
  let hss := Matrix.mulVec
    (npInv (env.migration_h 2 [[0, m01], [m10, 0]] none + env.drift_h 2 [nu0, nu1] none))
    (-(env.mutation_h 2 theta none sf))
  match rho with
  | RhoSpec.none => .ok ⟨[], hss⟩
  | RhoSpec.scalar r => .ok ⟨[twoPopLdSs env nu0 nu1 m01 m10 theta r sf hss], hss⟩
  | RhoSpec.list rs =>
    .ok ⟨rs.map (fun r => twoPopLdSs env nu0 nu1 m01 m10 theta r sf hss), hss⟩

/-- `steady_state_two_pop(nus, m, rho, theta, selfing_rate)` with its
validation chain (`nus = (nu0, nu1)`, `m01 = m[0][1]`, `m10 = m[1][0]`). -/
def steady_state_two_pop {nh nl : ℕ} (env : Env nh nl) (nu0 nu1 m01 m10 : ℚ)
    (rho : RhoSpec) (theta : ℚ) (selfing_rate : Option (List ℚ)) :
    Except PyErr (StateY nh nl) :=
  if scalarNeg rho then .error (.valueError "recombination rate cannot be negative")
  else if listNeg rho then .error (.valueError "recombination rate cannot be negative")
  else if theta ≤ 0 then .error (.valueError "mutation rate must be positive")
  else if m01 ≤ 0 ∨ m10 ≤ 0 ∨ nu0 ≤ 0 ∨ nu1 ≤ 0 then
    .error (.valueError "migration rates and relative population sizes must be positive")
  else
    match selfingCheck selfing_rate with
    | .error e => .error e
    | .ok fs => twoPopBody env nu0 nu1 m01 m10 rho theta fs

/- ### Time integrator (`integrate`) -/

/-- The cached LD half-step operators: a single pair for scalar `rho`, or
parallel lists (one entry per `rho`) for a batch. -/
inductive LdCache (nl : ℕ) : Type
  | single (ab1 ab2 : Mat nl nl)
  | multi (ab1s ab2s : List (Mat nl nl))

/-- The cached half-step operators: `Ab1_h = I + dt/2·A_h`,
`Ab2_h = (I − dt/2·A_h)^{-1}`, and the LD counterparts when `rho` is given. -/
structure Cache (nh nl : ℕ) : Type where
  ab1h : Mat nh nh
  ab2h : Mat nh nh
  ld : Option (LdCache nl)

/-- The loop variables of `integrate`'s stepping loop.  `yv` and `ysv` model
the Python variables `y` and `ys`, which are assigned only under the
`len(Y) == 2` test; `Option.none` means the variable is unbound.  `cache`
holds the variables `Ab1_h`, `Ab2_h`, `Ab1_ld`, `Ab2_ld` (unbound before the
first assembly). -/
structure LoopSt (nh nl : ℕ) : Type where
  h : Vec nh
  yv : Option (Vec nl)
  ysv : Option (List (Vec nl))
  dt : ℚ
  dtLast : ℚ
  nus : List ℚ
  nusLast : List ℚ
  elapsed : ℚ
  cache : Option (Cache nh nl)

/-- `num_pops = len(nu) if num_pops is None`; `len` of a callable raises
`TypeError`. -/
def numPopsOf (p : Params) : Except PyErr ℕ :=
  match p.num_pops with
  | some k => .ok k
  | none =>
    match p.nu with
    | NuSpec.fixed l => .ok l.length
    | NuSpec.fn _ => .error (.typeError "object of type function has no len")

/-- Whether the migration operator participates:
`num_pops > 1 and m is not None and np.any(np.array(m) != 0)`. -/
def migAct (p : Params) (np : ℕ) : Bool :=
  decide (1 < np) &&
    (match p.m with
     | some mm => mm.any (fun row => row.any (fun x => decide (x ≠ 0)))
     | none => false)

/-- The combined heterozygosity operator `Ab_h = D_h (+ M_h)`. -/
def asmH {nh nl : ℕ} (env : Env nh nl) (p : Params) (np : ℕ) (nus : List ℚ) :
    Mat nh nh :=
  let Dh := env.drift_h np nus p.frozen
  if migAct p np then Dh + env.migration_h np (p.m.getD []) p.frozen else Dh

/-- The combined LD operator `Ab_ld = D_ld (+ M_ld) + R(r)` at one `rho`. -/
def asmLd {nh nl : ℕ} (env : Env nh nl) (p : Params) (np : ℕ) (nus : List ℚ)
    (r : ℚ) : Mat nl nl :=
  let Dld := env.drift_ld np nus p.frozen
  if migAct p np then
    Dld + env.migration_ld np (p.m.getD []) p.frozen + env.recombination np r p.frozen p.selfing
  else Dld + env.recombination np r p.frozen p.selfing

/-- The operator (re-)assembly of lines 185–222: combined operators, explicit
half-step matrices `I + dt/2·A`, and the factorized implicit inverses. -/
def buildCache {nh nl : ℕ} (env : Env nh nl) (p : Params) (np : ℕ) (dt : ℚ)
    (nus : List ℚ) : Cache nh nl :=
  let Abh := asmH env p np nus
  { ab1h := 1 + (dt / 2) • Abh
    ab2h := npInv (1 - (dt / 2) • Abh)
    ld :=
      match p.rho with
      | RhoSpec.none => none
      | RhoSpec.scalar r =>
        let A := asmLd env p np nus r
        some (LdCache.single (1 + (dt / 2) • A) (npInv (1 - (dt / 2) • A)))
      | RhoSpec.list rs =>
        some (LdCache.multi
          (rs.map (fun r => 1 + (dt / 2) • asmLd env p np nus r))
          (rs.map (fun r => npInv (1 - (dt / 2) • asmLd env p np nus r)))) }

/-- The effective step size: `dt = T - elapsed_t if elapsed_t + dt > T`. -/
def dtEffOf {nh nl : ℕ} (p : Params) (st : LoopSt nh nl) : ℚ :=
  if p.T < st.elapsed + st.dt then p.T - st.elapsed else st.dt

/-- The size vector of the step: `nu(elapsed_t + dt/2)` for callable `nu`
(using the possibly clipped `dt`), else the unchanged `nus` variable. -/
def nusEffOf {nh nl : ℕ} (p : Params) (st : LoopSt nh nl) (dtE : ℚ) : List ℚ :=
  match p.nu with
  | NuSpec.fn f => f (st.elapsed + dtE / 2)
  | NuSpec.fixed _ => st.nus

/-- Line 184: `dt != dt_last or nus != nus_last or elapsed_t == 0`. -/
def recomputeCond {nh nl : ℕ} (p : Params) (st : LoopSt nh nl) (dtE : ℚ)
    (nusE : List ℚ) : Bool :=
  decide (dtE ≠ st.dtLast) || decide (nusE ≠ st.nusLast) || decide (st.elapsed = 0)

/-- The cache visible to the forward/backward sub-steps of the current step:
freshly assembled when the recompute condition fires, else the previous one. -/
def cacheUsedOf {nh nl : ℕ} (env : Env nh nl) (p : Params) (np : ℕ)
    (st : LoopSt nh nl) : Option (Cache nh nl) :=
  if recomputeCond p st (dtEffOf p st) (nusEffOf p st (dtEffOf p st)) then
    some (buildCache env p np (dtEffOf p st) (nusEffOf p st (dtEffOf p st)))
  else st.cache

/-- The Python loop `[g(ms[i], ys[i]) for i in range(len(ys))]`: element-wise
application, raising `IndexError` when `ys` is longer than `ms`. -/
def zipApply {nl : ℕ} (g : Mat nl nl → Vec nl → Vec nl) :
    List (Mat nl nl) → List (Vec nl) → Except PyErr (List (Vec nl))
  | _, [] => .ok []
  | [], _ :: _ => .error (.indexError "list index out of range")
  | A :: ms, y :: ys =>
    match zipApply g ms ys with
    | .error e => .error e
    | .ok t => .ok (g A y :: t)

/-- The forward and backward sub-steps of one iteration (lines 224–242),
given the visible cache `c`.  The LD forward update reads the heterozygosity
vector `h` before `h` itself is updated. -/
def stepCore {nh nl : ℕ} (rho : RhoSpec) (uh : Vec nh) (uld : Mat nl nh)
    (c : Cache nh nl) (dt : ℚ) (h : Vec nh) (yv : Option (Vec nl))
    (ysv : Option (List (Vec nl))) :
    Except PyErr (Option (Vec nl) × Option (List (Vec nl)) × Vec nh) :=
  match rho with
  | RhoSpec.none =>
    let h1 := Matrix.mulVec c.ab1h h + dt • uh
    .ok (yv, ysv, Matrix.mulVec c.ab2h h1)
  | RhoSpec.scalar _ =>
    match yv, c.ld with
    | some y, some (LdCache.single ab1 ab2) =>
      let y1 := Matrix.mulVec ab1 y + dt • Matrix.mulVec uld h
      let h1 := Matrix.mulVec c.ab1h h + dt • uh
      .ok (some (Matrix.mulVec ab2 y1), ysv, Matrix.mulVec c.ab2h h1)
    | none, _ => .error (.nameError "y")
    | some _, _ => .error (.nameError "Ab1_ld")
  | RhoSpec.list _ =>
    match ysv, c.ld with
    | some ys, some (LdCache.multi ab1s ab2s) =>
      match zipApply (fun A y => Matrix.mulVec A y + dt • Matrix.mulVec uld h) ab1s ys with
      | .error e => .error e
      | .ok ys1 =>
        let h1 := Matrix.mulVec c.ab1h h + dt • uh
        match zipApply (fun A y => Matrix.mulVec A y) ab2s ys1 with
        | .error e => .error e
        | .ok ys2 => .ok (yv, some ys2, Matrix.mulVec c.ab2h h1)
    | none, _ => .error (.nameError "ys")
    | some _, _ => .error (.nameError "Ab1_ld")

/-- One iteration of the `while` loop (lines 176–246): clip `dt`, evaluate
sizes at the step midpoint, re-assemble the operators when needed, run the
forward and backward sub-steps, then advance `elapsed_t` and record
`dt_last`/`nus_last`. -/
def stepIter {nh nl : ℕ} (env : Env nh nl) (p : Params) (np : ℕ)
    (st : LoopSt nh nl) : Except PyErr (LoopSt nh nl) :=
  match cacheUsedOf env p np st with
  | none => .error (.nameError "Ab1_h")
  | some c =>
    match stepCore p.rho (env.mutation_h np p.theta p.frozen p.selfing)
        (env.mutation_ld np p.theta p.frozen p.selfing) c (dtEffOf p st)
        st.h st.yv st.ysv with
    | .error e => .error e
    | .ok x =>
      .ok ⟨x.2.2, x.1, x.2.1, dtEffOf p st, dtEffOf p st,
        nusEffOf p st (dtEffOf p st), nusEffOf p st (dtEffOf p st),
        st.elapsed + dtEffOf p st, some c⟩

/-- The `while elapsed_t < T` loop on explicit fuel; `Option.none` means the
fuel was exhausted before the loop condition failed. -/
def runLoop {nh nl : ℕ} (env : Env nh nl) (p : Params) (np : ℕ) :
    ℕ → LoopSt nh nl → Option (Except PyErr (LoopSt nh nl))
  | fuel, st =>
    if st.elapsed < p.T then
      match fuel with
      | 0 => none
      | n + 1 =>
        match stepIter env p np st with
        | .error e => some (.error e)
        | .ok st' => runLoop env p np n st'
    else some (.ok st)

/-- Lines 147–174: resolve `num_pops`, bind `h`, bind `y` or `ys` according to
`len(Y) == 2`, and evaluate the initial sizes. -/
def initState {nh nl : ℕ} (p : Params) (Y : StateY nh nl) : LoopSt nh nl :=
  let nus0 := match p.nu with
    | NuSpec.fn f => f 0
    | NuSpec.fixed l => l
  { h := Y.h
    yv := if Y.ys.length = 1 then Y.ys.get? 0 else none
    ysv := if Y.ys.length = 1 then none else some Y.ys
    dt := p.dt
    dtLast := p.dt
    nus := nus0
    nusLast := nus0
    elapsed := 0
    cache := none }

/-- Lines 248–254: write `h` and `y`/`ys` back into the state container,
dispatching on `np.isscalar(rho)`. -/
def finishY {nh nl : ℕ} (p : Params) (Y : StateY nh nl) (st : LoopSt nh nl) :
    Except PyErr (StateY nh nl) :=
  match p.rho with
  | RhoSpec.scalar _ =>
    match st.yv with
    | some y => .ok ⟨Y.ys.set 0 y, st.h⟩
    | none => .error (.nameError "y")
  | _ =>
    match st.ysv with
    | some ys2 => .ok ⟨ys2, st.h⟩
    | none => .error (.nameError "ys")

/-- `integrate(Y, nu, T, dt, theta, rho, m, num_pops, selfing, frozen)`,
with the stepping loop run on `fuel`. -/
def integrate {nh nl : ℕ} (fuel : ℕ) (env : Env nh nl) (p : Params)
    (Y : StateY nh nl) : Option (Except PyErr (StateY nh nl)) :=
  match numPopsOf p with
  | .error e => some (.error e)
  | .ok np =>
    match runLoop env p np fuel (initState p Y) with
    | none => none
    | some (.error e) => some (.error e)
    | some (.ok st) => some (finishY p Y st)

/- ### Result-inspection helpers and invariants -/

/-- The heterozygosity component of a successful result. -/
def hPart {nh nl : ℕ} : Except PyErr (StateY nh nl) → Option (Vec nh)
  | .ok st => some st.h
  | .error _ => none

/-- The LD components of a successful result. -/
def ysPart {nh nl : ℕ} : Except PyErr (StateY nh nl) → Option (List (Vec nl))
  | .ok st => some st.ys
  | .error _ => none

/-- Whether the result is a `ValueError`. -/
def isValueErr {α : Type} : Except PyErr α → Bool
  | .error (.valueError _) => true
  | _ => false

/-- Whether an `integrate` run returned normally. -/
def resIsOk {nh nl : ℕ} : Option (Except PyErr (StateY nh nl)) → Bool
  | some (.ok _) => true
  | _ => false

/-- Whether an `integrate` run raised a `NameError` (unbound variable). -/
def resIsNameErr {nh nl : ℕ} : Option (Except PyErr (StateY nh nl)) → Bool
  | some (.error (.nameError _)) => true
  | _ => false

/-- The shape of the loop state matches the `rho` dispatch: the variable it
will read (`y` for scalar `rho`, `ys` for a batch, with enough cached
operators) is bound. -/
def shapeOkSt (p : Params) {nh nl : ℕ} (st : LoopSt nh nl) : Prop :=
  match p.rho with
  | RhoSpec.none => True
  | RhoSpec.scalar _ => ∃ y, st.yv = some y
  | RhoSpec.list rs => ∃ ys, st.ysv = some ys ∧ ys.length ≤ rs.length

/-- The shape precondition linking `rho` to the input container `Y`:
`len(Y) == 2` exactly when `rho` is a scalar (plus, for a batch, no more LD
vectors than `rho` values). -/
def shapeOkY (p : Params) {nh nl : ℕ} (Y : StateY nh nl) : Prop :=
  match p.rho with
  | RhoSpec.none => Y.ys.length ≠ 1
  | RhoSpec.scalar _ => Y.ys.length = 1
  | RhoSpec.list rs => Y.ys.length ≠ 1 ∧ Y.ys.length ≤ rs.length

/-- The minimal shape consistency between `rho` and `Y` (`len(Y) == 2` iff
`rho` is scalar). -/
def shapeMatch (p : Params) {nh nl : ℕ} (Y : StateY nh nl) : Prop :=
  match p.rho with
  | RhoSpec.scalar _ => Y.ys.length = 1
  | _ => Y.ys.length ≠ 1

/-- The mismatch hypothesis of the implicit shape precondition: `rho` scalar
with `len(Y) ≠ 2`, or `rho` a list/`None` with `len(Y) == 2`. -/
def shapeMismatch (p : Params) {nh nl : ℕ} (Y : StateY nh nl) : Prop :=
  match p.rho with
  | RhoSpec.scalar _ => Y.ys.length ≠ 1
  | _ => Y.ys.length = 1

/-- Non-negativity of the given recombination rate(s). -/
def rhoNonneg : RhoSpec → Prop
  | RhoSpec.scalar r => 0 ≤ r
  | RhoSpec.list rs => ∀ r ∈ rs, 0 ≤ r
  | RhoSpec.none => True

/-- Validity of a scalar selfing rate: absent, or within `[0, 1]`. -/
def sfValid : Option ℚ → Prop
  | none => True
  | some f => 0 ≤ f ∧ f ≤ 1

/-- An invalid-parameter combination for `steady_state`: non-positive `theta`,
a negative recombination rate, or a selfing rate outside `[0, 1]`. -/
def badSS (theta : ℚ) (rho : RhoSpec) (sf : Option ℚ) : Prop :=
  theta ≤ 0 ∨ (∃ r, rho = RhoSpec.scalar r ∧ r < 0) ∨
    (∃ rs, rho = RhoSpec.list rs ∧ ∃ r ∈ rs, r < 0) ∨
    (∃ f, sf = some f ∧ (f < 0 ∨ 1 < f))

/-- An invalid-parameter combination for `steady_state_two_pop`. -/
def badSS2 (theta : ℚ) (rho : RhoSpec) (nu0 nu1 m01 m10 : ℚ)
    (sf : Option (List ℚ)) : Prop :=
  theta ≤ 0 ∨ (∃ r, rho = RhoSpec.scalar r ∧ r < 0) ∨
    (∃ rs, rho = RhoSpec.list rs ∧ ∃ r ∈ rs, r < 0) ∨
    nu0 ≤ 0 ∨ nu1 ≤ 0 ∨ m01 ≤ 0 ∨ m10 ≤ 0 ∨
    (∃ fs f, sf = some fs ∧ f ∈ fs ∧ (f < 0 ∨ 1 < f))

/- ### Concrete instances used by witnesses and counterexamples -/

/-- A concrete operator-builder environment (all operators zero). -/
def envZ : Env 1 1 :=
  ⟨fun _ _ _ => 0, fun _ _ _ => 0, fun _ _ _ _ => 0, fun _ _ _ _ => 0,
   fun _ _ _ _ => 0, fun _ _ _ => 0, fun _ _ _ => 0⟩

/-- A concrete call with `T = 0` and scalar `rho` but `len(Y) = 1`. -/
def pMis : Params := ⟨NuSpec.fixed [1], 0, 1, 1, RhoSpec.scalar 0, none, none, none, none⟩

/-- A concrete call with `T = 5`, `dt = 1`, scalar `rho`, `len(Y) = 1`. -/
def pMisT : Params := ⟨NuSpec.fixed [1], 5, 1, 1, RhoSpec.scalar 0, none, none, none, none⟩

/-- A concrete call with a non-positive mutation rate `theta = -1`. -/
def pNegTheta : Params := ⟨NuSpec.fixed [1], 1, 1, -1, RhoSpec.none, none, none, none, none⟩

/-- A concrete heterozygosity-only call with all parameters valid. -/
def pOne : Params := ⟨NuSpec.fixed [1], 1, 1, 1, RhoSpec.none, none, none, none, none⟩

/-- The constant-one vector of length 1. -/
def vOne : Vec 1 := fun _ => 1

/-- A concrete heterozygosity-only state `Y = [h]`. -/
def yH : StateY 1 1 := ⟨[], vOne⟩

/-- A concrete state `Y = [y, h]` of Python length 2. -/
def yYH : StateY 1 1 := ⟨[vOne], vOne⟩

/- ### Lemmas: equilibrium solvers -/

lemma scalarNeg_false {rho : RhoSpec} (h : rhoNonneg rho) : scalarNeg rho = false := by
  cases rho with
  | scalar r => exact decide_eq_false (not_lt.mpr h)
  | list rs => rfl
  | none => rfl

lemma listNeg_false {rho : RhoSpec} (h : rhoNonneg rho) : listNeg rho = false := by
  cases rho with
  | scalar r => rfl
  | list rs =>
    simp only [listNeg, List.any_eq_false, decide_eq_true_eq]
    intro r hr
    exact not_lt.mpr (h r hr)
  | none => rfl

lemma steady_state_valid {nl : ℕ} (env : Env 1 nl) (theta : ℚ) (rho : RhoSpec)
    (sf : Option ℚ) (hθ : 0 < theta) (hρ : rhoNonneg rho) (hsf : sfValid sf) :
    steady_state env theta rho sf = steadyFinish env theta rho sf (hssOf theta sf) := by
  unfold steady_state
  rw [if_neg (not_le.mpr hθ)]
  rw [scalarNeg_false hρ, listNeg_false hρ]
  cases sf with
  | none => rfl
  | some f =>
    have hf : ¬ (f < 0 ∨ 1 < f) := by
      obtain ⟨h0, h1⟩ := hsf
      push_neg
      exact ⟨h0, h1⟩
    simp only [Bool.false_eq_true, if_false]
    rw [if_neg hf]

lemma hPart_steadyFinish {nl : ℕ} (env : Env 1 nl) (theta : ℚ) (rho : RhoSpec)
    (sf : Option ℚ) (hss : Vec 1) :
    hPart (steadyFinish env theta rho sf hss) = some hss := by
  cases rho <;> rfl

lemma ss_invalid {nl : ℕ} (env : Env 1 nl) (theta : ℚ) (rho : RhoSpec)
    (sf : Option ℚ) (hbad : badSS theta rho sf) :
    isValueErr (steady_state env theta rho sf) = true := by
  unfold steady_state
  by_cases h1 : theta ≤ 0
  · simp [h1, isValueErr]
  · rw [if_neg h1]
    by_cases h2 : scalarNeg rho = true
    · simp [h2, isValueErr]
    · rw [Bool.not_eq_true] at h2
      by_cases h3 : listNeg rho = true
      · simp [h2, h3, isValueErr]
      · rw [Bool.not_eq_true] at h3
        rcases hbad with hb | ⟨r, hr, hneg⟩ | ⟨rs, hrs, r, hr, hneg⟩ | ⟨f, hf, hbadf⟩
        · exact absurd hb h1
        · subst hr
          simp only [scalarNeg, decide_eq_false_iff_not] at h2
          exact absurd hneg h2
        · subst hrs
          simp only [listNeg, List.any_eq_false, decide_eq_true_eq] at h3
          exact absurd hneg (h3 r hr)
        · rw [hf]
          simp only [h2, h3, Bool.false_eq_true, if_false]
          rw [if_pos hbadf]
          rfl

lemma ss2_invalid {nh nl : ℕ} (env : Env nh nl) (theta : ℚ) (rho : RhoSpec)
    (nu0 nu1 m01 m10 : ℚ) (sf : Option (List ℚ))
    (hbad : badSS2 theta rho nu0 nu1 m01 m10 sf) :
    isValueErr (steady_state_two_pop env nu0 nu1 m01 m10 rho theta sf) = true := by
  unfold steady_state_two_pop
  by_cases h2 : scalarNeg rho = true
  · simp [h2, isValueErr]
  · rw [Bool.not_eq_true] at h2
    by_cases h3 : listNeg rho = true
    · simp [h2, h3, isValueErr]
    · rw [Bool.not_eq_true] at h3
      simp only [h2, h3, Bool.false_eq_true, if_false]
      by_cases h1 : theta ≤ 0
      · simp [h1, isValueErr]
      · rw [if_neg h1]
        by_cases h4 : m01 ≤ 0 ∨ m10 ≤ 0 ∨ nu0 ≤ 0 ∨ nu1 ≤ 0
        · rw [if_pos h4]; rfl
        · rw [if_neg h4]
          push_neg at h4
          obtain ⟨hm01, hm10, hnu0, hnu1⟩ := h4
          rcases hbad with hb | ⟨r, hr, hneg⟩ | ⟨rs, hrs, r, hr, hneg⟩
            | hb | hb | hb | hb | ⟨fs, f, hfs, hf, hbadf⟩
          · exact absurd hb h1
          · subst hr
            simp only [scalarNeg, decide_eq_false_iff_not] at h2
            exact absurd hneg h2
          · subst hrs
            simp only [listNeg, List.any_eq_false, decide_eq_true_eq] at h3
            exact absurd hneg (h3 r hr)
          · exact absurd hb (not_le.mpr hnu0)
          · exact absurd hb (not_le.mpr hnu1)
          · exact absurd hb (not_le.mpr hm01)
          · exact absurd hb (not_le.mpr hm10)
          · rw [hfs]
            simp only [selfingCheck]
            by_cases hlen : fs.length ≠ 2
            · rw [if_pos hlen]; rfl
            · rw [if_neg hlen]
              have hany : fs.any (fun f => decide (f < 0) || decide (1 < f)) = true := by
                simp only [List.any_eq_true, Bool.or_eq_true, decide_eq_true_eq]
                exact ⟨f, hf, hbadf⟩
              rw [if_pos hany]
              rfl

/- ### Claim C4 -/

/-- Claim C4: for every positive `theta`, `steady_state` with no selfing rate
returns the heterozygosity vector `[theta]` exactly, and with a scalar selfing
rate `f` in `[0, 1]` it returns exactly `[theta * (1 - f/2)]` (for any valid
recombination-rate argument; the heterozygosity vector is the last entry of
the returned list, the `h` component of the `StateY` encoding). -/
theorem claim_C4_equilibrium_h {nl : ℕ} (env : Env 1 nl) (theta : ℚ)
    (rho : RhoSpec) (hθ : 0 < theta) (hρ : rhoNonneg rho) :
    hPart (steady_state env theta rho none) = some (fun _ => theta) ∧
    ∀ f : ℚ, 0 ≤ f → f ≤ 1 →
      hPart (steady_state env theta rho (some f)) = some (fun _ => theta * (1 - f / 2)) := by
  constructor
  · rw [steady_state_valid env theta rho none hθ hρ trivial, hPart_steadyFinish]
    rfl
  · intro f hf0 hf1
    rw [steady_state_valid env theta rho (some f) hθ hρ ⟨hf0, hf1⟩, hPart_steadyFinish]
    rfl

/-- Witness for C4 at `theta = 1`, `rho` absent, `f = 1`. -/
theorem claim_C4_witness :
    hPart (steady_state envZ 1 RhoSpec.none none) = some (fun _ => 1) ∧
    hPart (steady_state envZ 1 RhoSpec.none (some 1)) = some (fun _ => 1 * (1 - 1 / 2)) :=
  ⟨(claim_C4_equilibrium_h envZ 1 RhoSpec.none (by decide) trivial).1,
   (claim_C4_equilibrium_h envZ 1 RhoSpec.none (by decide) trivial).2 1 (by decide) (by decide)⟩

/- ### Claim C5 -/

/-- Claim C5: for every positive `theta` and list of non-negative
recombination rates `rs`, `steady_state` returns the `rs.length` LD vectors
followed by the heterozygosity vector appended last, where the `i`-th LD
vector is exactly `equilibrium_ld` (the single-`rho` equilibrium solve) at
`rs[i]` with the same `theta` and selfing rate; each entry also equals the LD
component of the scalar-`rho` `steady_state` call. -/
theorem claim_C5_batched_rho {nl : ℕ} (env : Env 1 nl) (theta : ℚ)
    (rs : List ℚ) (sf : Option ℚ) (hθ : 0 < theta) (hrs : ∀ r ∈ rs, 0 ≤ r)
    (hsf : sfValid sf) :
    steady_state env theta (RhoSpec.list rs) sf =
      Except.ok ⟨rs.map (fun r => equilibrium_ld env theta r sf), hssOf theta sf⟩ ∧
    ∀ r ∈ rs, ysPart (steady_state env theta (RhoSpec.scalar r) sf) =
      some [equilibrium_ld env theta r sf] := by
  constructor
  · rw [steady_state_valid env theta (RhoSpec.list rs) sf hθ hrs hsf]
    rfl
  · intro r hr
    rw [steady_state_valid env theta (RhoSpec.scalar r) sf hθ (hrs r hr) hsf]
    rfl

/-- Witness for C5 at `theta = 1`, `rs = [0, 1]`, no selfing. -/
theorem claim_C5_witness :
    steady_state envZ 1 (RhoSpec.list [0, 1]) none =
      Except.ok ⟨[0, 1].map (fun r => equilibrium_ld envZ 1 r none), hssOf 1 none⟩ ∧
    ysPart (steady_state envZ 1 (RhoSpec.scalar 0) none) =
      some [equilibrium_ld envZ 1 0 none] :=
  ⟨(claim_C5_batched_rho envZ 1 [0, 1] none (by decide) (by decide) trivial).1,
   (claim_C5_batched_rho envZ 1 [0, 1] none (by decide) (by decide) trivial).2 0 (by decide)⟩

/- ### Claim C7 -/

/-- Claim C7: every call to `steady_state` or `steady_state_two_pop` with
`theta ≤ 0`, a negative recombination rate, a selfing rate outside `[0, 1]`,
or (two-population case) a non-positive relative size or migration rate,
raises a `ValueError`.  The result is an error for every operator-builder
environment, so no operator matrix is built and no linear solve is attempted
(the validation chain precedes all matrix construction in the definitions). -/
theorem claim_C7_fail_fast {nl nh2 nl2 : ℕ} (env : Env 1 nl) (env2 : Env nh2 nl2)
    (theta : ℚ) (rho : RhoSpec) (sf : Option ℚ) (nu0 nu1 m01 m10 : ℚ)
    (sf2 : Option (List ℚ)) :
    (badSS theta rho sf → isValueErr (steady_state env theta rho sf) = true) ∧
    (badSS2 theta rho nu0 nu1 m01 m10 sf2 →
      isValueErr (steady_state_two_pop env2 nu0 nu1 m01 m10 rho theta sf2) = true) :=
  ⟨ss_invalid env theta rho sf, ss2_invalid env2 theta rho nu0 nu1 m01 m10 sf2⟩

/-- Witness for C7: `theta = 0` for the one-population solver and `m01 = 0`
for the two-population solver. -/
theorem claim_C7_witness :
    isValueErr (steady_state envZ 0 RhoSpec.none none) = true ∧
    isValueErr (steady_state_two_pop envZ 1 1 0 1 RhoSpec.none 1 none) = true :=
  ⟨(claim_C7_fail_fast envZ envZ 0 RhoSpec.none none 1 1 1 1 none).1 (Or.inl le_rfl),
   (claim_C7_fail_fast envZ envZ 1 RhoSpec.none none 1 1 0 1 none).2
     (Or.inr (Or.inr (Or.inr (Or.inr (Or.inr (Or.inl le_rfl))))))⟩

/- ### Lemmas: the time integrator -/

lemma npInv_eq_inv {n : ℕ} (A : Mat n n) : npInv A = A⁻¹ := by
  rw [Matrix.inv_def, Ring.inverse_eq_inv']
  rfl

lemma cacheUsedOf_eq {nh nl : ℕ} (env : Env nh nl) (p : Params) (np : ℕ)
    (st : LoopSt nh nl)
    (hc : st.cache = some (buildCache env p np st.dtLast st.nusLast) ∨ st.elapsed = 0) :
    cacheUsedOf env p np st =
      some (buildCache env p np (dtEffOf p st) (nusEffOf p st (dtEffOf p st))) := by
  unfold cacheUsedOf
  by_cases hrc : recomputeCond p st (dtEffOf p st) (nusEffOf p st (dtEffOf p st)) = true
  · rw [if_pos hrc]
  · rw [if_neg hrc]
    simp only [recomputeCond, Bool.or_eq_true, decide_eq_true_eq, not_or, not_not] at hrc
    obtain ⟨⟨ha, hb⟩, hc0⟩ := hrc
    rcases hc with hcc | h0
    · rw [hcc, hb, ha]
    · exact absurd h0 hc0

lemma zipApply_eq_zipWith {nl : ℕ} (g : Mat nl nl → Vec nl → Vec nl) :
    ∀ (ys : List (Vec nl)) (ms : List (Mat nl nl)), ys.length ≤ ms.length →
      zipApply g ms ys = Except.ok (List.zipWith g ms ys) := by
  intro ys
  induction ys with
  | nil =>
    intro ms _
    cases ms <;> rfl
  | cons y ys ih =>
    intro ms hlen
    cases ms with
    | nil => simp at hlen
    | cons A ms' =>
      have h2 := ih ms' (by simpa using hlen)
      simp [zipApply, h2]

lemma zipWith_fact {nl : ℕ} (g1 g2 : Mat nl nl → Vec nl → Vec nl)
    (f1 f2 : ℚ → Mat nl nl) :
    ∀ (rs : List ℚ) (ys : List (Vec nl)),
      List.zipWith g2 (rs.map f2) (List.zipWith g1 (rs.map f1) ys) =
      List.zipWith (fun r y => g2 (f2 r) (g1 (f1 r) y)) rs ys := by
  intro rs
  induction rs with
  | nil => intro ys; simp
  | cons r rs ih =>
    intro ys
    cases ys with
    | nil => simp
    | cons y ys => simp [ih]

lemma stepIter_eq_none {nh nl : ℕ} (env : Env nh nl) (p : Params) (np : ℕ)
    (st : LoopSt nh nl)
    (hc : st.cache = some (buildCache env p np st.dtLast st.nusLast) ∨ st.elapsed = 0)
    (hrho : p.rho = RhoSpec.none) :
    stepIter env p np st = Except.ok
      ⟨Matrix.mulVec (npInv (1 - (dtEffOf p st / 2) • asmH env p np (nusEffOf p st (dtEffOf p st))))
         (Matrix.mulVec (1 + (dtEffOf p st / 2) • asmH env p np (nusEffOf p st (dtEffOf p st))) st.h
           + dtEffOf p st • env.mutation_h np p.theta p.frozen p.selfing),
       st.yv, st.ysv, dtEffOf p st, dtEffOf p st,
       nusEffOf p st (dtEffOf p st), nusEffOf p st (dtEffOf p st),
       st.elapsed + dtEffOf p st,
       some (buildCache env p np (dtEffOf p st) (nusEffOf p st (dtEffOf p st)))⟩ := by
  unfold stepIter
  rw [cacheUsedOf_eq env p np st hc]
  simp only [stepCore, hrho, buildCache]

lemma stepIter_eq_scalar {nh nl : ℕ} (env : Env nh nl) (p : Params) (np : ℕ)
    (st : LoopSt nh nl) (r : ℚ) (y : Vec nl)
    (hc : st.cache = some (buildCache env p np st.dtLast st.nusLast) ∨ st.elapsed = 0)
    (hrho : p.rho = RhoSpec.scalar r) (hy : st.yv = some y) :
    stepIter env p np st = Except.ok
      ⟨Matrix.mulVec (npInv (1 - (dtEffOf p st / 2) • asmH env p np (nusEffOf p st (dtEffOf p st))))
         (Matrix.mulVec (1 + (dtEffOf p st / 2) • asmH env p np (nusEffOf p st (dtEffOf p st))) st.h
           + dtEffOf p st • env.mutation_h np p.theta p.frozen p.selfing),
       some (Matrix.mulVec (npInv (1 - (dtEffOf p st / 2) • asmLd env p np (nusEffOf p st (dtEffOf p st)) r))
         (Matrix.mulVec (1 + (dtEffOf p st / 2) • asmLd env p np (nusEffOf p st (dtEffOf p st)) r) y
           + dtEffOf p st • Matrix.mulVec (env.mutation_ld np p.theta p.frozen p.selfing) st.h)),
       st.ysv, dtEffOf p st, dtEffOf p st,
       nusEffOf p st (dtEffOf p st), nusEffOf p st (dtEffOf p st),
       st.elapsed + dtEffOf p st,
       some (buildCache env p np (dtEffOf p st) (nusEffOf p st (dtEffOf p st)))⟩ := by
  unfold stepIter
  rw [cacheUsedOf_eq env p np st hc]
  simp only [stepCore, hrho, hy, buildCache]

lemma stepIter_eq_list {nh nl : ℕ} (env : Env nh nl) (p : Params) (np : ℕ)
    (st : LoopSt nh nl) (rs : List ℚ) (ys : List (Vec nl))
    (hc : st.cache = some (buildCache env p np st.dtLast st.nusLast) ∨ st.elapsed = 0)
    (hrho : p.rho = RhoSpec.list rs) (hys : st.ysv = some ys)
    (hlen : ys.length ≤ rs.length) :
    stepIter env p np st = Except.ok
      ⟨Matrix.mulVec (npInv (1 - (dtEffOf p st / 2) • asmH env p np (nusEffOf p st (dtEffOf p st))))
         (Matrix.mulVec (1 + (dtEffOf p st / 2) • asmH env p np (nusEffOf p st (dtEffOf p st))) st.h
           + dtEffOf p st • env.mutation_h np p.theta p.frozen p.selfing),
       st.yv,
       some (List.zipWith (fun A v => Matrix.mulVec A v)
         (rs.map (fun r => npInv (1 - (dtEffOf p st / 2) • asmLd env p np (nusEffOf p st (dtEffOf p st)) r)))
         (List.zipWith (fun A v => Matrix.mulVec A v
             + dtEffOf p st • Matrix.mulVec (env.mutation_ld np p.theta p.frozen p.selfing) st.h)
           (rs.map (fun r => 1 + (dtEffOf p st / 2) • asmLd env p np (nusEffOf p st (dtEffOf p st)) r)) ys)),
       dtEffOf p st, dtEffOf p st,
       nusEffOf p st (dtEffOf p st), nusEffOf p st (dtEffOf p st),
       st.elapsed + dtEffOf p st,
       some (buildCache env p np (dtEffOf p st) (nusEffOf p st (dtEffOf p st)))⟩ := by
  unfold stepIter
  rw [cacheUsedOf_eq env p np st hc]
  simp only [stepCore, hrho, hys, buildCache]
  rw [zipApply_eq_zipWith _ ys _ (by simpa using hlen)]
  dsimp only
  rw [zipApply_eq_zipWith _ _ _
    (by simp only [List.length_zipWith, List.length_map]; exact min_le_left _ _)]

lemma stepIter_post {nh nl : ℕ} (env : Env nh nl) (p : Params) (np : ℕ)
    (st st' : LoopSt nh nl) (h : stepIter env p np st = Except.ok st') :
    st'.elapsed = st.elapsed + dtEffOf p st ∧ st'.dt = dtEffOf p st ∧
    st'.dtLast = dtEffOf p st ∧ st'.nusLast = nusEffOf p st (dtEffOf p st) ∧
    st'.nus = nusEffOf p st (dtEffOf p st) ∧ st'.cache = cacheUsedOf env p np st := by
  unfold stepIter at h
  cases hcu : cacheUsedOf env p np st with
  | none => rw [hcu] at h; exact absurd h (by simp)
  | some c =>
    rw [hcu] at h
    dsimp only at h
    cases hsc : stepCore p.rho (env.mutation_h np p.theta p.frozen p.selfing)
        (env.mutation_ld np p.theta p.frozen p.selfing) c (dtEffOf p st)
        st.h st.yv st.ysv with
    | error e => rw [hsc] at h; exact absurd h (by simp)
    | ok x =>
      rw [hsc] at h
      injection h with h2
      subst h2
      exact ⟨rfl, rfl, rfl, rfl, rfl, rfl⟩

lemma stepIter_ok {nh nl : ℕ} (env : Env nh nl) (p : Params) (np : ℕ)
    (st : LoopSt nh nl)
    (hc : st.cache = some (buildCache env p np st.dtLast st.nusLast) ∨ st.elapsed = 0)
    (hsh : shapeOkSt p st) :
    ∃ st', stepIter env p np st = Except.ok st' ∧
      st'.cache = some (buildCache env p np (dtEffOf p st) (nusEffOf p st (dtEffOf p st))) ∧
      st'.dtLast = dtEffOf p st ∧
      st'.nusLast = nusEffOf p st (dtEffOf p st) ∧
      st'.dt = dtEffOf p st ∧
      st'.elapsed = st.elapsed + dtEffOf p st ∧
      shapeOkSt p st' ∧
      (p.rho = RhoSpec.none → st'.yv = st.yv ∧ st'.ysv = st.ysv) := by
  cases hrho : p.rho with
  | none =>
    refine ⟨_, stepIter_eq_none env p np st hc hrho, rfl, rfl, rfl, rfl, rfl, ?_, ?_⟩
    · simp [shapeOkSt, hrho]
    · exact fun _ => ⟨rfl, rfl⟩
  | scalar r =>
    simp only [shapeOkSt, hrho] at hsh
    obtain ⟨y, hy⟩ := hsh
    refine ⟨_, stepIter_eq_scalar env p np st r y hc hrho hy, rfl, rfl, rfl, rfl, rfl, ?_, ?_⟩
    · simp only [shapeOkSt, hrho]
      exact ⟨_, rfl⟩
    · exact fun hno => RhoSpec.noConfusion hno
  | list rs =>
    simp only [shapeOkSt, hrho] at hsh
    obtain ⟨ys, hys, hlen⟩ := hsh
    refine ⟨_, stepIter_eq_list env p np st rs ys hc hrho hys hlen, rfl, rfl, rfl, rfl, rfl, ?_, ?_⟩
    · simp only [shapeOkSt, hrho]
      refine ⟨_, rfl, ?_⟩
      simp only [List.length_zipWith, List.length_map]
      exact min_le_left _ _
    · exact fun hno => RhoSpec.noConfusion hno

lemma runLoop_done {nh nl : ℕ} (env : Env nh nl) (p : Params) (np : ℕ)
    (st : LoopSt nh nl) (h : ¬ st.elapsed < p.T) (n : ℕ) :
    runLoop env p np n st = some (Except.ok st) := by
  unfold runLoop
  rw [if_neg h]

lemma runLoop_zero {nh nl : ℕ} (env : Env nh nl) (p : Params) (np : ℕ)
    (st : LoopSt nh nl) (h : st.elapsed < p.T) :
    runLoop env p np 0 st = none := by
  unfold runLoop
  rw [if_pos h]

lemma runLoop_succ {nh nl : ℕ} (env : Env nh nl) (p : Params) (np : ℕ)
    (st : LoopSt nh nl) (h : st.elapsed < p.T) (n : ℕ) :
    runLoop env p np (n + 1) st =
      match stepIter env p np st with
      | Except.error e => some (Except.error e)
      | Except.ok st' => runLoop env p np n st' := by
  conv_lhs => unfold runLoop
  rw [if_pos h]

lemma runLoop_term {nh nl : ℕ} (env : Env nh nl) (p : Params) (np : ℕ) :
    ∀ (n : ℕ) (st : LoopSt nh nl),
      (st.cache = some (buildCache env p np st.dtLast st.nusLast) ∨ st.elapsed = 0) →
      shapeOkSt p st → 0 < st.dt → st.elapsed ≤ p.T →
      p.T - st.elapsed ≤ (n : ℚ) * st.dt →
      ∃ stf, runLoop env p np n st = some (Except.ok stf) ∧ stf.elapsed = p.T ∧
        shapeOkSt p stf ∧
        (p.rho = RhoSpec.none → stf.yv = st.yv ∧ stf.ysv = st.ysv) := by
  intro n
  induction n with
  | zero =>
    intro st hc hsh hdt hle hbound
    by_cases hlt : st.elapsed < p.T
    · exfalso
      simp only [Nat.cast_zero, zero_mul] at hbound
      have := sub_pos.mpr hlt
      linarith
    · exact ⟨st, runLoop_done env p np st hlt 0, le_antisymm hle (not_lt.mp hlt),
        hsh, fun _ => ⟨rfl, rfl⟩⟩
  | succ k ih =>
    intro st hc hsh hdt hle hbound
    by_cases hlt : st.elapsed < p.T
    · obtain ⟨st', hstep, hcache', hdtL, hnusL, hdt', hel', hsh', hpres⟩ :=
        stepIter_ok env p np st hc hsh
      rw [runLoop_succ env p np st hlt k, hstep]
      have hc' : st'.cache = some (buildCache env p np st'.dtLast st'.nusLast) ∨
          st'.elapsed = 0 := Or.inl (by rw [hcache', hdtL, hnusL])
      by_cases hclip : p.T < st.elapsed + st.dt
      · have hdtE : dtEffOf p st = p.T - st.elapsed := by
          unfold dtEffOf; rw [if_pos hclip]
        have helT : st'.elapsed = p.T := by
          rw [hel', hdtE]; ring
        have hdtpos : 0 < st'.dt := by
          rw [hdt', hdtE]; exact sub_pos.mpr hlt
        obtain ⟨stf, hrun, hfel, hfsh, hfpres⟩ := ih st' hc' hsh' hdtpos
          (le_of_eq helT)
          (by rw [helT]; simp only [sub_self]; positivity)
        exact ⟨stf, hrun, hfel, hfsh, fun hrho =>
          ⟨by rw [(hfpres hrho).1, (hpres hrho).1], by rw [(hfpres hrho).2, (hpres hrho).2]⟩⟩
      · have hdtE : dtEffOf p st = st.dt := by
          unfold dtEffOf; rw [if_neg hclip]
        have helT : st'.elapsed = st.elapsed + st.dt := by rw [hel', hdtE]
        have hdtpos : 0 < st'.dt := by rw [hdt', hdtE]; exact hdt
        obtain ⟨stf, hrun, hfel, hfsh, hfpres⟩ := ih st' hc' hsh' hdtpos
          (by rw [helT]; exact not_lt.mp hclip)
          (by
            rw [helT, hdt', hdtE]
            push_cast at hbound ⊢
            linarith)
        exact ⟨stf, hrun, hfel, hfsh, fun hrho =>
          ⟨by rw [(hfpres hrho).1, (hpres hrho).1], by rw [(hfpres hrho).2, (hpres hrho).2]⟩⟩
    · exact ⟨st, runLoop_done env p np st hlt (k + 1), le_antisymm hle (not_lt.mp hlt),
        hsh, fun _ => ⟨rfl, rfl⟩⟩

lemma initState_shape {nh nl : ℕ} (p : Params) (Y : StateY nh nl)
    (hsh : shapeOkY p Y) : shapeOkSt p (initState p Y) := by
  cases hrho : p.rho with
  | none => simp [shapeOkSt, hrho]
  | scalar r =>
    simp only [shapeOkY, hrho] at hsh
    obtain ⟨a, ha⟩ := List.length_eq_one.mp hsh
    simp only [shapeOkSt, hrho, initState]
    refine ⟨a, ?_⟩
    rw [ha]
    simp
  | list rs =>
    simp only [shapeOkY, hrho] at hsh
    obtain ⟨hne, hle⟩ := hsh
    simp only [shapeOkSt, hrho, initState]
    exact ⟨Y.ys, by rw [if_neg hne], hle⟩

/- ### Claim C1 -/

/-- Claim C1: at every integration step (any loop state whose cache is the one
assembled for the recorded `(dt_last, nus_last)`, or the first step of the
epoch), each LD vector is updated by the forward sub-step
`y := (I + dt/2 A_ld) y + dt U_ld h` with `h` the heterozygosity vector from
before its own update in the same step, the heterozygosity vector is updated
by `h := (I + dt/2 A_h) h + dt U_h`, and the backward sub-step applies
`(I - dt/2 A)⁻¹` to each subsystem (`npInv`, the exact inverse, models the
dense inverse of the heterozygosity subsystem and the sparse factorization of
each LD subsystem alike). -/
theorem claim_C1_step_structure {nh nl : ℕ} (env : Env nh nl) (p : Params)
    (np : ℕ) (st : LoopSt nh nl)
    (hc : st.cache = some (buildCache env p np st.dtLast st.nusLast) ∨ st.elapsed = 0) :
    (∀ r y, p.rho = RhoSpec.scalar r → st.yv = some y →
      ∃ st', stepIter env p np st = Except.ok st' ∧
        st'.yv = some (Matrix.mulVec
            (1 - (dtEffOf p st / 2) • asmLd env p np (nusEffOf p st (dtEffOf p st)) r)⁻¹
            (Matrix.mulVec (1 + (dtEffOf p st / 2) • asmLd env p np (nusEffOf p st (dtEffOf p st)) r) y
              + dtEffOf p st • Matrix.mulVec (env.mutation_ld np p.theta p.frozen p.selfing) st.h)) ∧
        st'.h = Matrix.mulVec
            (1 - (dtEffOf p st / 2) • asmH env p np (nusEffOf p st (dtEffOf p st)))⁻¹
            (Matrix.mulVec (1 + (dtEffOf p st / 2) • asmH env p np (nusEffOf p st (dtEffOf p st))) st.h
              + dtEffOf p st • env.mutation_h np p.theta p.frozen p.selfing)) ∧
    (∀ rs ys, p.rho = RhoSpec.list rs → st.ysv = some ys → ys.length ≤ rs.length →
      ∃ st', stepIter env p np st = Except.ok st' ∧
        st'.ysv = some (List.zipWith
            (fun A y => Matrix.mulVec (1 - (dtEffOf p st / 2) • A)⁻¹
              (Matrix.mulVec (1 + (dtEffOf p st / 2) • A) y
                + dtEffOf p st • Matrix.mulVec (env.mutation_ld np p.theta p.frozen p.selfing) st.h))
            (rs.map (asmLd env p np (nusEffOf p st (dtEffOf p st)))) ys) ∧
        st'.h = Matrix.mulVec
            (1 - (dtEffOf p st / 2) • asmH env p np (nusEffOf p st (dtEffOf p st)))⁻¹
            (Matrix.mulVec (1 + (dtEffOf p st / 2) • asmH env p np (nusEffOf p st (dtEffOf p st))) st.h
              + dtEffOf p st • env.mutation_h np p.theta p.frozen p.selfing)) := by
  constructor
  · intro r y hrho hy
    refine ⟨_, stepIter_eq_scalar env p np st r y hc hrho hy, ?_, ?_⟩
    · dsimp only
      rw [npInv_eq_inv]
    · dsimp only
      rw [npInv_eq_inv]
  · intro rs ys hrho hys hlen
    refine ⟨_, stepIter_eq_list env p np st rs ys hc hrho hys hlen, ?_, ?_⟩
    · dsimp only
      rw [zipWith_fact, List.zipWith_map_left]
      simp only [npInv_eq_inv]
    · dsimp only
      rw [npInv_eq_inv]

/-- Witness for C1: the scalar-`rho` step succeeds on a concrete first step. -/
theorem claim_C1_witness :
    ∃ st', stepIter envZ pMisT 1 (initState pMisT yYH) = Except.ok st' := by
  obtain ⟨st', hstep, -⟩ :=
    (claim_C1_step_structure envZ pMisT 1 (initState pMisT yYH) (Or.inr rfl)).1 0 vOne rfl rfl
  exact ⟨st', hstep⟩

/- ### Claim C3 -/

/-- Claim C3: within one `integrate` call, the combined operators and their
half-step matrices and factorizations are re-assembled at a step only when the
recompute condition (`dt` changed, evaluated sizes changed under exact
equality, or first step of the epoch) holds: when it is false the previous
cache is reused unchanged, and at every reachable step the cache visible to
the sub-steps is exactly the one assembled for that step's `(dt, sizes)`. -/
theorem claim_C3_cache_reuse {nh nl : ℕ} (env : Env nh nl) (p : Params) (np : ℕ)
    (st st' : LoopSt nh nl) (hstep : stepIter env p np st = Except.ok st') :
    (recomputeCond p st (dtEffOf p st) (nusEffOf p st (dtEffOf p st)) = false →
      st'.cache = st.cache) ∧
    ((st.cache = some (buildCache env p np st.dtLast st.nusLast) ∨ st.elapsed = 0) →
      st'.cache = some (buildCache env p np (dtEffOf p st) (nusEffOf p st (dtEffOf p st))) ∧
      st'.dtLast = dtEffOf p st ∧ st'.nusLast = nusEffOf p st (dtEffOf p st)) := by
  obtain ⟨-, -, hdtL, hnusL, -, hcache⟩ := stepIter_post env p np st st' hstep
  constructor
  · intro hfalse
    rw [hcache]
    unfold cacheUsedOf
    rw [if_neg (by rw [hfalse]; exact Bool.false_ne_true)]
  · intro hc
    exact ⟨by rw [hcache, cacheUsedOf_eq env p np st hc], hdtL, hnusL⟩

/-- Witness for C3: a concrete first step assembles the cache for that step's
`(dt, sizes)`. -/
theorem claim_C3_witness :
    ∃ st', stepIter envZ pOne 1 (initState pOne yH) = Except.ok st' ∧
      st'.cache = some (buildCache envZ pOne 1 (dtEffOf pOne (initState pOne yH))
        (nusEffOf pOne (initState pOne yH) (dtEffOf pOne (initState pOne yH)))) := by
  obtain ⟨st', hstep, -⟩ :=
    stepIter_ok envZ pOne 1 (initState pOne yH) (Or.inr rfl) (by simp [shapeOkSt, pOne])
  exact ⟨st', hstep,
    ((claim_C3_cache_reuse envZ pOne 1 _ st' hstep).2 (Or.inr rfl)).1⟩

/- ### Claim C9 -/

/-- Claim C9: at every step, the size vector recorded by the step (and used
for any operator assembly at that step) is `nu(elapsed + dt/2)` with the
possibly clipped `dt` when `nu` is callable, and the unchanged `nus` variable
(initialised to the fixed vector) when `nu` is fixed. -/
theorem claim_C9_midpoint_sizes {nh nl : ℕ} (env : Env nh nl) (p : Params)
    (np : ℕ) (st st' : LoopSt nh nl)
    (hstep : stepIter env p np st = Except.ok st') :
    (∀ f, p.nu = NuSpec.fn f →
      st'.nus = f (st.elapsed +
        (if p.T < st.elapsed + st.dt then p.T - st.elapsed else st.dt) / 2)) ∧
    (∀ l, p.nu = NuSpec.fixed l → st'.nus = st.nus) ∧
    (∀ (Y : StateY nh nl) l, p.nu = NuSpec.fixed l → (initState p Y).nus = l) ∧
    (recomputeCond p st (dtEffOf p st) (nusEffOf p st (dtEffOf p st)) = true →
      st'.cache = some (buildCache env p np (dtEffOf p st) st'.nus)) := by
  obtain ⟨-, -, -, -, hnus, hcache⟩ := stepIter_post env p np st st' hstep
  refine ⟨?_, ?_, ?_, ?_⟩
  · intro f hf
    rw [hnus]
    unfold nusEffOf dtEffOf
    rw [hf]
  · intro l hl
    rw [hnus]
    unfold nusEffOf
    rw [hl]
  · intro Y l hl
    unfold initState
    rw [hl]
  · intro htrue
    rw [hcache, hnus]
    unfold cacheUsedOf
    rw [if_pos htrue]

/-- Witness for C9: a concrete step under fixed sizes keeps the size vector. -/
theorem claim_C9_witness :
    ∃ st', stepIter envZ pOne 1 (initState pOne yH) = Except.ok st' ∧
      st'.nus = (initState pOne yH).nus := by
  obtain ⟨st', hstep, -⟩ :=
    stepIter_ok envZ pOne 1 (initState pOne yH) (Or.inr rfl) (by simp [shapeOkSt, pOne])
  exact ⟨st', hstep,
    (claim_C9_midpoint_sizes envZ pOne 1 _ st' hstep).2.1 [1] rfl⟩

/- ### Claim C2 -/

/-- Claim C2: for positive duration and step size (and a state container whose
shape matches `rho`), the stepping loop of `integrate` terminates within
`⌈T/dt⌉` iterations; the step size is clipped to `T - elapsed` whenever
`elapsed + dt` would exceed `T`; no step overshoots `T`; and on exit the
accumulated elapsed time equals `T` exactly, after which `integrate` returns
normally. -/
theorem claim_C2_termination {nh nl : ℕ} (env : Env nh nl) (p : Params)
    (np : ℕ) (Y : StateY nh nl) (hnp : numPopsOf p = Except.ok np)
    (hT : 0 < p.T) (hdt : 0 < p.dt) (hsh : shapeOkY p Y) :
    (∀ st : LoopSt nh nl, p.T < st.elapsed + st.dt →
      dtEffOf p st = p.T - st.elapsed) ∧
    (∀ st st' : LoopSt nh nl, stepIter env p np st = Except.ok st' →
      st'.elapsed ≤ p.T) ∧
    (∃ stf, runLoop env p np (Nat.ceil (p.T / p.dt)) (initState p Y) =
        some (Except.ok stf) ∧ stf.elapsed = p.T) ∧
    (∃ Yf, integrate (Nat.ceil (p.T / p.dt)) env p Y = some (Except.ok Yf)) := by
  have hbound : p.T - (initState p Y).elapsed ≤ ((Nat.ceil (p.T / p.dt) : ℕ) : ℚ) * (initState p Y).dt := by
    show p.T - 0 ≤ ((Nat.ceil (p.T / p.dt) : ℕ) : ℚ) * p.dt
    rw [sub_zero]
    exact (div_le_iff hdt).mp (Nat.le_ceil _)
  obtain ⟨stf, hrun, hfel, hfsh, hfpres⟩ := runLoop_term env p np
    (Nat.ceil (p.T / p.dt)) (initState p Y) (Or.inr rfl) (initState_shape p Y hsh)
    hdt (le_of_lt hT) hbound
  refine ⟨?_, ?_, ⟨stf, hrun, hfel⟩, ?_⟩
  · intro st hclip
    unfold dtEffOf
    rw [if_pos hclip]
  · intro st st' hstep
    obtain ⟨hel, -⟩ := stepIter_post env p np st st' hstep
    rw [hel]
    unfold dtEffOf
    by_cases hclip : p.T < st.elapsed + st.dt
    · rw [if_pos hclip]; linarith
    · rw [if_neg hclip]; exact not_lt.mp hclip
  · have hfin : ∃ Yf, finishY p Y stf = Except.ok Yf := by
      cases hrho : p.rho with
      | scalar r =>
        simp only [shapeOkSt, hrho] at hfsh
        obtain ⟨y, hy⟩ := hfsh
        simp only [finishY, hrho, hy]
        exact ⟨_, rfl⟩
      | list rs =>
        simp only [shapeOkSt, hrho] at hfsh
        obtain ⟨ys2, hys2, -⟩ := hfsh
        simp only [finishY, hrho, hys2]
        exact ⟨_, rfl⟩
      | none =>
        have hysv : stf.ysv = some Y.ys := by
          rw [(hfpres hrho).2]
          simp only [shapeOkY, hrho] at hsh
          simp only [initState]
          rw [if_neg hsh]
        simp only [finishY, hrho, hysv]
        exact ⟨_, rfl⟩
    obtain ⟨Yf, hYf⟩ := hfin
    refine ⟨Yf, ?_⟩
    unfold integrate
    rw [hnp]
    dsimp only
    rw [hrun]
    dsimp only
    rw [hYf]

/-- Witness for C2 at `T = 1`, `dt = 1`, heterozygosity-only state. -/
theorem claim_C2_witness :
    ∃ stf, runLoop envZ pOne 1 (Nat.ceil (pOne.T / pOne.dt)) (initState pOne yH) =
      some (Except.ok stf) ∧ stf.elapsed = pOne.T :=
  (claim_C2_termination envZ pOne 1 yH rfl (by decide) (by decide)
    (by simp [shapeOkY, pOne, yH])).2.2.1

/- ### Claim C6 (corrected) -/

/-- Counterexample to C6 as frozen: with `T = 0`, scalar `rho` and a state of
Python length 1 (heterozygosity only), `integrate` does not return the input
state; it raises a `NameError` for the unbound variable `y`. -/
theorem claim_C6_counterexample :
    resIsNameErr (integrate 0 envZ pMis yH) = true := by decide

/-- Claim C6 (amended): for every call whose state shape is consistent with
`rho` (`len(Y) == 2` exactly when `rho` is scalar), integrating for duration
`T = 0` executes no step and returns the state exactly equal to the input,
for any fuel. -/
theorem claim_C6_amended {nh nl : ℕ} (env : Env nh nl) (p : Params)
    (Y : StateY nh nl) (n : ℕ) (hnp : ∃ np, numPopsOf p = Except.ok np)
    (hT : p.T = 0) (hsh : shapeMatch p Y) :
    integrate n env p Y = some (Except.ok Y) := by
  obtain ⟨np, hnp⟩ := hnp
  have hdone : ¬ (initState p Y).elapsed < p.T := by
    rw [hT]
    show ¬ (0 : ℚ) < 0
    exact lt_irrefl 0
  have hrun := runLoop_done env p np (initState p Y) hdone n
  have hfin : finishY p Y (initState p Y) = Except.ok Y := by
    cases hrho : p.rho with
    | scalar r =>
      simp only [shapeMatch, hrho] at hsh
      obtain ⟨a, ha⟩ := List.length_eq_one.mp hsh
      simp only [finishY, hrho, initState, ha]
      simp
      rw [← ha]
    | list rs =>
      simp only [shapeMatch, hrho] at hsh
      simp only [finishY, hrho, initState]
      rw [if_neg hsh]
    | none =>
      simp only [shapeMatch, hrho] at hsh
      simp only [finishY, hrho, initState]
      rw [if_neg hsh]
  unfold integrate
  rw [hnp]
  dsimp only
  rw [hrun]
  dsimp only
  rw [hfin]

/-- Witness for the amended C6: a shape-consistent `T = 0` call is the
identity. -/
theorem claim_C6_witness : integrate 3 envZ pMis yYH = some (Except.ok yYH) :=
  claim_C6_amended envZ pMis yYH 3 ⟨1, rfl⟩ rfl (by simp [shapeMatch, pMis, yYH])

/- ### Claim C8 (corrected) -/

lemma integrate_negTheta_ok : resIsOk (integrate 2 envZ pNegTheta yH) = true := by
  obtain ⟨st1, hstep, hcache, hdtL, hnusL, hdt1, hel1, hsh1, hpres⟩ :=
    stepIter_ok envZ pNegTheta 1 (initState pNegTheta yH) (Or.inr rfl)
      (by simp [shapeOkSt, pNegTheta])
  have hdtE : dtEffOf pNegTheta (initState pNegTheta yH) = 1 := by
    unfold dtEffOf
    norm_num [initState, pNegTheta]
  have hel : st1.elapsed = 1 := by
    rw [hel1, hdtE]
    norm_num [initState]
  have hlt0 : (initState pNegTheta yH).elapsed < pNegTheta.T := by
    show (0 : ℚ) < 1
    norm_num
  have hrun : runLoop envZ pNegTheta 1 2 (initState pNegTheta yH) =
      some (Except.ok st1) := by
    rw [runLoop_succ envZ pNegTheta 1 _ hlt0 1, hstep]
    dsimp only
    refine runLoop_done envZ pNegTheta 1 st1 ?_ 1
    rw [hel]
    show ¬ (1 : ℚ) < 1
    exact lt_irrefl 1
  have hysv : st1.ysv = some [] := by
    rw [(hpres rfl).2]
    rfl
  unfold integrate
  rw [show numPopsOf pNegTheta = Except.ok 1 from rfl]
  dsimp only
  rw [hrun]
  dsimp only
  unfold finishY
  rw [show pNegTheta.rho = RhoSpec.none from rfl]
  dsimp only
  rw [hysv]
  rfl

/-- Counterexample to C8 as frozen: `integrate` called with the non-positive
mutation rate `theta = -1` (duration 1, one full step of numerical work)
reports no error and returns normally — no parameter is detected or
reported. -/
theorem claim_C8_counterexample :
    resIsOk (integrate 2 envZ pNegTheta yH) = true :=
  integrate_negTheta_ok

/-- Claim C8 (amended): `steady_state` and `steady_state_two_pop` detect a
non-positive mutation rate, negative recombination rate, or out-of-range
selfing rate and report a `ValueError` before any numerical work; `integrate`
performs no such validation — a call with `theta = -1` completes normally. -/
theorem claim_C8_amended {nl nh2 nl2 : ℕ} (env : Env 1 nl) (env2 : Env nh2 nl2)
    (theta : ℚ) (rho : RhoSpec) (sf : Option ℚ) (nu0 nu1 m01 m10 : ℚ)
    (sf2 : Option (List ℚ)) :
    (badSS theta rho sf → isValueErr (steady_state env theta rho sf) = true) ∧
    (badSS2 theta rho nu0 nu1 m01 m10 sf2 →
      isValueErr (steady_state_two_pop env2 nu0 nu1 m01 m10 rho theta sf2) = true) ∧
    resIsOk (integrate 2 envZ pNegTheta yH) = true :=
  ⟨ss_invalid env theta rho sf, ss2_invalid env2 theta rho nu0 nu1 m01 m10 sf2,
   integrate_negTheta_ok⟩

/-- Witness for the amended C8. -/
theorem claim_C8_witness :
    isValueErr (steady_state envZ 0 RhoSpec.none none) = true ∧
    resIsOk (integrate 2 envZ pNegTheta yH) = true :=
  ⟨(claim_C8_amended envZ envZ 0 RhoSpec.none none 1 1 1 1 none).1 (Or.inl le_rfl),
   (claim_C8_amended envZ envZ 0 RhoSpec.none none 1 1 1 1 none).2.2⟩

/- ### Claim C10 -/

/-- Claim C10: `integrate` has the unstated shape precondition that
`len(Y) == 2` (one LD vector plus the heterozygosity vector) exactly when
`rho` is a scalar.  Every call in which `rho` is a list or `None` while
`len(Y) == 2`, or `rho` is a scalar while `len(Y) ≠ 2`, fails with an
unbound-variable `NameError` — even when `T = 0` — and no state is returned
(the side condition on `dt`/`T` for the `rho = None` case only ensures the
loop itself terminates so that the failure is reached). -/
theorem claim_C10_shape_precondition {nh nl : ℕ} (env : Env nh nl) (p : Params)
    (np : ℕ) (Y : StateY nh nl) (hnp : numPopsOf p = Except.ok np)
    (hterm : p.rho = RhoSpec.none → 0 < p.dt ∨ p.T ≤ 0)
    (hmis : shapeMismatch p Y) :
    ∃ n, resIsNameErr (integrate n env p Y) = true := by
  cases hrho : p.rho with
  | scalar r =>
    simp only [shapeMismatch, hrho] at hmis
    have hyv : (initState p Y).yv = none := by
      simp only [initState]
      rw [if_neg hmis]
    by_cases hT : (initState p Y).elapsed < p.T
    · refine ⟨1, ?_⟩
      have hstep : stepIter env p np (initState p Y) =
          Except.error (PyErr.nameError "y") := by
        unfold stepIter
        rw [cacheUsedOf_eq env p np _ (Or.inr rfl)]
        dsimp only
        simp only [stepCore, hrho, hyv]
      unfold integrate
      rw [hnp]
      dsimp only
      rw [runLoop_succ env p np _ hT 0, hstep]
      rfl
    · refine ⟨0, ?_⟩
      unfold integrate
      rw [hnp]
      dsimp only
      rw [runLoop_done env p np _ hT 0]
      dsimp only
      simp only [finishY, hrho, hyv]
      rfl
  | list rs =>
    simp only [shapeMismatch, hrho] at hmis
    have hysv : (initState p Y).ysv = none := by
      simp only [initState]
      rw [if_pos hmis]
    by_cases hT : (initState p Y).elapsed < p.T
    · refine ⟨1, ?_⟩
      have hstep : stepIter env p np (initState p Y) =
          Except.error (PyErr.nameError "ys") := by
        unfold stepIter
        rw [cacheUsedOf_eq env p np _ (Or.inr rfl)]
        dsimp only
        simp only [stepCore, hrho, hysv]
      unfold integrate
      rw [hnp]
      dsimp only
      rw [runLoop_succ env p np _ hT 0, hstep]
      rfl
    · refine ⟨0, ?_⟩
      unfold integrate
      rw [hnp]
      dsimp only
      rw [runLoop_done env p np _ hT 0]
      dsimp only
      simp only [finishY, hrho, hysv]
      rfl
  | none =>
    simp only [shapeMismatch, hrho] at hmis
    have hysv : (initState p Y).ysv = none := by
      simp only [initState]
      rw [if_pos hmis]
    by_cases hT : (initState p Y).elapsed < p.T
    · have hT0 : (0 : ℚ) < p.T := hT
      rcases hterm hrho with hdt | hTneg
      · have hbound : p.T - (initState p Y).elapsed ≤
            ((Nat.ceil (p.T / p.dt) : ℕ) : ℚ) * (initState p Y).dt := by
          show p.T - 0 ≤ ((Nat.ceil (p.T / p.dt) : ℕ) : ℚ) * p.dt
          rw [sub_zero]
          exact (div_le_iff hdt).mp (Nat.le_ceil _)
        obtain ⟨stf, hrun, hfel, hfsh, hfpres⟩ := runLoop_term env p np
          (Nat.ceil (p.T / p.dt)) (initState p Y) (Or.inr rfl)
          (by simp [shapeOkSt, hrho]) hdt (le_of_lt hT0) hbound
        refine ⟨Nat.ceil (p.T / p.dt), ?_⟩
        have hysvf : stf.ysv = none := by
          rw [(hfpres hrho).2, hysv]
        unfold integrate
        rw [hnp]
        dsimp only
        rw [hrun]
        dsimp only
        simp only [finishY, hrho, hysvf]
        rfl
      · exact absurd hTneg (not_le.mpr hT0)
    · refine ⟨0, ?_⟩
      unfold integrate
      rw [hnp]
      dsimp only
      rw [runLoop_done env p np _ hT 0]
      dsimp only
      simp only [finishY, hrho, hysv]
      rfl

/-- Witness for C10: scalar `rho` with a heterozygosity-only state raises the
unbound-variable error. -/
theorem claim_C10_witness :
    ∃ n, resIsNameErr (integrate n envZ pMisT yH) = true :=
  claim_C10_shape_precondition envZ pMisT 1 yH rfl
    (fun h => absurd h (by decide)) (by simp [shapeMismatch, pMisT, yH])
